import Mathlib

/-!
Verification of the go-cryptomus client library.

This file gives a shallow embedding of the library's core: the request
signer (signRequest / VerifySign from sign.go), the request dispatcher
(fetch and joinURL from cryptomus.go), the recurrence operations
(CreateRecurrence, GetRecurrenceInfo, ListRecurrences, CancelRecurrence)
and the exchange-rate operation (both ListExchangeRates variants), and
proves the specification's claims about them.

Conventions:
  * Go byte slices are `List Nat` with every element below 256.
  * Go strings are Lean `String`; `[]byte(s)` is `utf8Bytes s`.
  * Machine integers are `Nat`/`Int` with explicit reductions mod 2^32
    where 32-bit overflow matters (MD5 state words).
  * Fallible Go functions returning `(T, error)` become `Except`.
  * Decoded JSON (Go `map[string]interface{}` / `interface{}`) is the
    inductive `JValue`; a Go map is carried as a key/value list.
-/

deriving instance DecidableEq for Except

/-- A byte is a natural number; all producers below keep values under 256. -/
abbrev Byte := Nat

/-! ### Hexadecimal encoding (Go encoding/hex.EncodeToString) -/

/-- The sixteen characters hex.EncodeToString draws from: Go's hextable
string, lowercase. -/
def hexAlphabet : List Char := "0123456789abcdef".data

/-- Lowercase hexadecimal digit for a nibble: the table lookup Go's
encoding/hex performs on its hextable string. -/
def hexDigit (n : Nat) : Char := hexAlphabet.getD n '0'

/-- Character list of the lowercase hex encoding of a byte sequence.
The high nibble is written first, as in Go's encoding/hex. -/
def hexChars : List Byte → List Char
  | [] => []
  | b :: rest => hexDigit (b / 16 % 16) :: hexDigit (b % 16) :: hexChars rest

/-- Go hex.EncodeToString: lowercase hexadecimal rendering of bytes. -/
def hexEncodeToString (bs : List Byte) : String :=
  String.mk (hexChars bs)

/-! ### Base64 (Go encoding/base64 StdEncoding) -/

/-- The standard base64 alphabet used by base64.StdEncoding. -/
def base64Alphabet : List Char :=
  "ABCDEFGHIJKLMNOPQRSTUVWXYZabcdefghijklmnopqrstuvwxyz0123456789+/".data

/-- Character for a 6-bit group under the standard base64 alphabet. -/
def base64Char (n : Nat) : Char := base64Alphabet.getD n 'A'

/-- Go base64.StdEncoding.EncodeToString: groups of three bytes become four
alphabet characters; a final group of one or two bytes is padded with
equals signs. -/
def base64StdEncode : List Byte → String
  | [] => ""
  | [b1] =>
      String.mk [base64Char (b1 / 4 % 64), base64Char (b1 % 4 * 16), '=', '=']
  | [b1, b2] =>
      String.mk [base64Char (b1 / 4 % 64), base64Char (b1 % 4 * 16 + b2 / 16 % 16),
        base64Char (b2 % 16 * 4), '=']
  | b1 :: b2 :: b3 :: rest =>
      String.mk [base64Char (b1 / 4 % 64), base64Char (b1 % 4 * 16 + b2 / 16 % 16),
        base64Char (b2 % 16 * 4 + b3 / 64 % 4), base64Char (b3 % 64)]
      ++ base64StdEncode rest

/-! ### UTF-8 bytes of a string (Go `[]byte(s)` on a string value) -/

/-- UTF-8 encoding of one Unicode scalar value. -/
def utf8EncodeChar (c : Char) : List Byte :=
  let n := c.toNat
  if n < 128 then [n]
  else if n < 2048 then [192 + n / 64, 128 + n % 64]
  else if n < 65536 then [224 + n / 4096, 128 + n / 64 % 64, 128 + n % 64]
  else [240 + n / 262144, 128 + n / 4096 % 64, 128 + n / 64 % 64, 128 + n % 64]

/-- UTF-8 bytes of a string: Go strings are exactly these bytes. -/
def utf8Bytes (s : String) : List Byte :=
  s.data.foldr (fun c acc => utf8EncodeChar c ++ acc) []

/-! ### MD5 (Go crypto/md5.Sum)

A direct executable transliteration of RFC 1321 on `Nat`, with 32-bit
words kept below 2^32 by explicit reductions. -/

/-- Addition modulo 2^32. -/
def add32 (a b : Nat) : Nat := (a + b) % 4294967296

/-- Bitwise complement on a 32-bit word. -/
def not32 (a : Nat) : Nat := 4294967295 - a % 4294967296

/-- Left rotation of a 32-bit word by `s` places. -/
def rotl32 (x s : Nat) : Nat :=
  (x % 4294967296 * 2 ^ s % 4294967296) ||| (x % 4294967296 / 2 ^ (32 - s))

/-- The 64 sine-derived MD5 constants. -/
def md5K : List Nat :=
  [0xd76aa478, 0xe8c7b756, 0x242070db, 0xc1bdceee,
   0xf57c0faf, 0x4787c62a, 0xa8304613, 0xfd469501,
   0x698098d8, 0x8b44f7af, 0xffff5bb1, 0x895cd7be,
   0x6b901122, 0xfd987193, 0xa679438e, 0x49b40821,
   0xf61e2562, 0xc040b340, 0x265e5a51, 0xe9b6c7aa,
   0xd62f105d, 0x02441453, 0xd8a1e681, 0xe7d3fbc8,
   0x21e1cde6, 0xc33707d6, 0xf4d50d87, 0x455a14ed,
   0xa9e3e905, 0xfcefa3f8, 0x676f02d9, 0x8d2a4c8a,
   0xfffa3942, 0x8771f681, 0x6d9d6122, 0xfde5380c,
   0xa4beea44, 0x4bdecfa9, 0xf6bb4b60, 0xbebfbc70,
   0x289b7ec6, 0xeaa127fa, 0xd4ef3085, 0x04881d05,
   0xd9d4d039, 0xe6db99e5, 0x1fa27cf8, 0xc4ac5665,
   0xf4292244, 0x432aff97, 0xab9423a7, 0xfc93a039,
   0x655b59c3, 0x8f0ccc92, 0xffeff47d, 0x85845dd1,
   0x6fa87e4f, 0xfe2ce6e0, 0xa3014314, 0x4e0811a1,
   0xf7537e82, 0xbd3af235, 0x2ad7d2bb, 0xeb86d391]

/-- The per-round left-rotation amounts of MD5. -/
def md5S : List Nat :=
  [7, 12, 17, 22, 7, 12, 17, 22, 7, 12, 17, 22, 7, 12, 17, 22,
   5, 9, 14, 20, 5, 9, 14, 20, 5, 9, 14, 20, 5, 9, 14, 20,
   4, 11, 16, 23, 4, 11, 16, 23, 4, 11, 16, 23, 4, 11, 16, 23,
   6, 10, 15, 21, 6, 10, 15, 21, 6, 10, 15, 21, 6, 10, 15, 21]

/-- One of the 64 MD5 rounds: `m` is the 16-word message schedule of the
current block, `i` the round index. -/
def md5Round (m : List Nat) (st : Nat × Nat × Nat × Nat) (i : Nat) :
    Nat × Nat × Nat × Nat :=
  let a := st.1
  let b := st.2.1
  let c := st.2.2.1
  let d := st.2.2.2
  let f :=
    if i < 16 then (b &&& c) ||| (not32 b &&& d)
    else if i < 32 then (d &&& b) ||| (not32 d &&& c)
    else if i < 48 then b ^^^ c ^^^ d
    else c ^^^ (b ||| not32 d)
  let g :=
    if i < 16 then i
    else if i < 32 then (5 * i + 1) % 16
    else if i < 48 then (3 * i + 5) % 16
    else 7 * i % 16
  let sum := add32 (add32 a f) (add32 (md5K.getD i 0) (m.getD g 0))
  (d, add32 b (rotl32 sum (md5S.getD i 0)), b, c)

/-- Little-endian 32-bit words of one 64-byte block. -/
def md5Words (blk : List Byte) : List Nat :=
  (List.range 16).map fun j =>
    blk.getD (4 * j) 0 + 256 * blk.getD (4 * j + 1) 0
      + 65536 * blk.getD (4 * j + 2) 0 + 16777216 * blk.getD (4 * j + 3) 0

/-- Little-endian bytes of a 32-bit word. -/
def toLE4 (w : Nat) : List Byte :=
  [w % 256, w / 256 % 256, w / 65536 % 256, w / 16777216 % 256]

/-- Little-endian 8-byte rendering of the 64-bit message bit length. -/
def toLE8 (w : Nat) : List Byte :=
  [w % 256, w / 256 % 256, w / 65536 % 256, w / 16777216 % 256,
   w / 4294967296 % 256, w / 1099511627776 % 256,
   w / 281474976710656 % 256, w / 72057594037927936 % 256]

/-- MD5 padding: a 0x80 byte, zeros to 56 mod 64, then the bit length. -/
def md5Pad (msg : List Byte) : List Byte :=
  msg ++ 128 :: List.replicate ((120 - (msg.length + 1) % 64) % 64) 0
    ++ toLE8 (8 * msg.length % 18446744073709551616)

/-- Split a byte list into 64-byte chunks. -/
def chunks64 (l : List Byte) : List (List Byte) :=
  if h : l = [] then []
  else l.take 64 :: chunks64 (l.drop 64)
  termination_by l.length
  decreasing_by
    simp only [List.length_drop]
    have : l.length ≠ 0 := fun hl => h (List.length_eq_zero.mp hl)
    omega

/-- Compress one block into the running MD5 state. -/
def md5Block (st : Nat × Nat × Nat × Nat) (blk : List Byte) :
    Nat × Nat × Nat × Nat :=
  let m := md5Words blk
  let r := (List.range 64).foldl (md5Round m) st
  (add32 st.1 r.1, add32 st.2.1 r.2.1, add32 st.2.2.1 r.2.2.1,
    add32 st.2.2.2 r.2.2.2)

/-- Final MD5 state over a whole (padded) message. -/
def md5State (msg : List Byte) : Nat × Nat × Nat × Nat :=
  (chunks64 (md5Pad msg)).foldl md5Block
    (0x67452301, 0xefcdab89, 0x98badcfe, 0x10325476)

/-- Little-endian serialization of the final state: the 16 digest bytes. -/
def md5Finish (st : Nat × Nat × Nat × Nat) : List Byte :=
  toLE4 st.1 ++ toLE4 st.2.1 ++ toLE4 st.2.2.1 ++ toLE4 st.2.2.2

/-- Go md5.Sum: the 16-byte MD5 digest of a byte sequence. -/
def md5Sum (msg : List Byte) : List Byte := md5Finish (md5State msg)

/-! ### signRequest (sign.go) -/

/-- Embedding of signRequest from sign.go: reject an empty API key, base64
the body, append the key, and return the lowercase hex MD5 of the UTF-8
bytes of that concatenation. -/
def signRequest (apiKey : String) (reqBody : List Byte) : Except String String :=
  if apiKey = "" then .error "API key cannot be empty"
  else
    let data := base64StdEncode reqBody
    .ok (hexEncodeToString (md5Sum (utf8Bytes (data ++ apiKey))))

/-! ### Decoded JSON values (Go `interface{}` after json.Unmarshal)

Numbers decode to Go float64 and are re-rendered by encoding/json; we
carry the rendered numeric literal as text (`num lit`), which is faithful
for every claim below since no claim depends on float formatting. A Go
`map[string]interface{}` is carried as the list of its key/value pairs. -/

inductive JValue where
  | null
  | bool (b : Bool)
  | num (lit : String)
  | str (s : String)
  | arr (xs : List JValue)
  | obj (fields : List (String × JValue))
deriving Inhabited

/-- Byte-wise (equivalently code-point-wise) comparison of strings, the
order sort.Strings uses when encoding/json marshals a Go map. -/
def charListLe : List Char → List Char → Bool
  | [], _ => true
  | _ :: _, [] => false
  | a :: xs, b :: ys =>
      if a.toNat < b.toNat then true
      else if b.toNat < a.toNat then false
      else charListLe xs ys

/-- String order used for Go map keys during marshaling. -/
def strLeBool (a b : String) : Bool := charListLe a.data b.data

/-- Insert one field into a key-sorted field list. -/
def insertField (p : String × JValue) :
    List (String × JValue) → List (String × JValue)
  | [] => [p]
  | q :: rest =>
      if strLeBool p.1 q.1 then p :: q :: rest else q :: insertField p rest

/-- Key-sort a field list, as encoding/json does for Go map keys. -/
def sortFields : List (String × JValue) → List (String × JValue)
  | [] => []
  | p :: rest => insertField p (sortFields rest)

/-- Escaping of one character inside a JSON string, following Go
encoding/json defaults (including its HTML-safe escapes). -/
def escapeChar (c : Char) : List Char :=
  if c = '"' then ['\\', '"']
  else if c = '\\' then ['\\', '\\']
  else if c = '\n' then ['\\', 'n']
  else if c = '\r' then ['\\', 'r']
  else if c = '\t' then ['\\', 't']
  else if c.toNat < 32 then
    ['\\', 'u', '0', '0', hexDigit (c.toNat / 16), hexDigit (c.toNat % 16)]
  else if c = '<' then ['\\', 'u', '0', '0', '3', 'c']
  else if c = '>' then ['\\', 'u', '0', '0', '3', 'e']
  else if c = '&' then ['\\', 'u', '0', '0', '2', '6']
  else if c.toNat = 8232 then ['\\', 'u', '2', '0', '2', '8']
  else if c.toNat = 8233 then ['\\', 'u', '2', '0', '2', '9']
  else [c]

/-- JSON string literal as Go encoding/json writes it. -/
def quoteJ (s : String) : String :=
  String.mk ('"' :: s.data.foldr (fun c acc => escapeChar c ++ acc) ['"'])

mutual

/-- Serialization of a decoded JSON value, as Go encoding/json writes it.
Object fields are emitted in the stored order; Go structs marshal in
declaration order, and decoded Go maps — which are unordered — are
represented here with the key order Go's encoder emits for maps, namely
sorted (`goMarshalMap` below establishes that order). -/
def marshalJ : JValue → String
  | .null => "null"
  | .bool true => "true"
  | .bool false => "false"
  | .num lit => lit
  | .str s => quoteJ s
  | .arr xs => "[" ++ marshalArr xs ++ "]"
  | .obj fs => "\x7b" ++ marshalFields fs ++ "\x7d"

/-- Comma-separated serialization of array elements. -/
def marshalArr : List JValue → String
  | [] => ""
  | [x] => marshalJ x
  | x :: y :: rest => marshalJ x ++ "," ++ marshalArr (y :: rest)

/-- Comma-separated serialization of object fields. -/
def marshalFields : List (String × JValue) → String
  | [] => ""
  | [(k, v)] => quoteJ k ++ ":" ++ marshalJ v
  | (k, v) :: q :: rest => quoteJ k ++ ":" ++ marshalJ v ++ "," ++ marshalFields (q :: rest)

end

/-- Go json.Marshal applied to a `map[string]interface{}`: the keys are
sorted, then the object is serialized. -/
def goMarshalMap (fs : List (String × JValue)) : String :=
  "\x7b" ++ marshalFields (sortFields fs) ++ "\x7d"

/-- Map indexing `m[k]` on a decoded JSON object. -/
def goIndex (fs : List (String × JValue)) (k : String) : Option JValue :=
  (fs.find? fun kv => kv.1 = k).map fun kv => kv.2

/-- The Go idiom `m[k].(string)`: `some s` exactly when the key is present
with a string-typed value. -/
def goIndexString (fs : List (String × JValue)) (k : String) : Option String :=
  match goIndex fs k with
  | some (.str s) => some s
  | _ => none

/-- Go `delete(m, k)` on the decoded object. -/
def deleteKey (fs : List (String × JValue)) (k : String) :
    List (String × JValue) :=
  fs.filter fun kv => kv.1 ≠ k

/-- Failure modes of VerifySign (sign.go). -/
inductive VerifyError where
  | missingSignature
  | signError (msg : String)
  | invalidSignature
deriving DecidableEq

/-- Embedding of VerifySign from sign.go, starting from the decoded JSON
object (json.Unmarshal of the raw body into `map[string]interface{}` is
the externally supplied parse; a body that fails to unmarshal errors out
before this logic runs). It extracts the string-typed `sign` field,
deletes that field, re-marshals the remaining object (Go map marshaling,
hence key-sorted), recomputes the signature and compares. -/
def VerifySign (apiKey : String) (jsonBody : List (String × JValue)) :
    Except VerifyError Unit :=
  match goIndexString jsonBody "sign" with
  | none => .error .missingSignature
  | some reqSign =>
      let modifiedBody := goMarshalMap (deleteKey jsonBody "sign")
      match signRequest apiKey (utf8Bytes modifiedBody) with
      | .error e => .error (.signError e)
      | .ok expectedSign =>
          if reqSign = expectedSign then .ok () else .error .invalidSignature

/-- Modelled from the spec: the re-serialization the spec demands in its
design note, emitting the remaining fields "in the order they appeared in
the received body, with no normalization or sorting applied". Used only
to compare against the code's `goMarshalMap`. -/
def marshalPreservingReceivedOrder (fs : List (String × JValue)) : String :=
  "\x7b" ++ marshalFields fs ++ "\x7d"

/-! ### Go path.Clean / path.Join and joinURL (cryptomus.go)

Lexical path cleaning is modeled on character lists: a path splits on
the separator into parts, the parts are processed with the usual
element/dot/dot-dot stack discipline of path.Clean, and the survivors are
re-joined. `joinURL` in the source parses the base with url.Parse, sets
`u.Path = path.Join(u.Path, endpoint)` and re-renders the URL; since the
scheme and host pass through unchanged, the model works on the base
address's path component directly. -/

/-- Split a character list at every separator, keeping empty parts
(the semantics of strings.Split on "/"). -/
def splitSlash : List Char → List (List Char)
  | [] => [[]]
  | c :: rest =>
      match splitSlash rest with
      | [] => [[]]
      | s :: ss => if c = '/' then [] :: s :: ss else (c :: s) :: ss

/-- The element discipline of Go path.Clean: empty and dot elements are
dropped, a dot-dot pops the previous element when one is available, is
discarded at the root of a rooted path, and is kept in a relative path
with nothing left to pop. `acc` holds the processed elements reversed. -/
def cleanStack (rooted : Bool) (acc : List (List Char)) :
    List (List Char) → List (List Char)
  | [] => acc.reverse
  | s :: rest =>
      if s = [] ∨ s = ['.'] then cleanStack rooted acc rest
      else if s = ['.', '.'] then
        match acc with
        | [] =>
            if rooted then cleanStack rooted [] rest
            else cleanStack rooted [['.', '.']] rest
        | a :: moreAcc =>
            if a = ['.', '.'] then cleanStack rooted (s :: acc) rest
            else cleanStack rooted moreAcc rest
      else cleanStack rooted (s :: acc) rest

/-- Join path elements with single separators. -/
def joinSegs : List (List Char) → List Char
  | [] => []
  | [s] => s
  | s :: t :: rest => s ++ '/' :: joinSegs (t :: rest)

/-- Go path.Clean on a character list. -/
def goCleanChars (cs : List Char) : List Char :=
  match cs with
  | [] => ['.']
  | c :: _ =>
      if c = '/' then
        match cleanStack true [] (splitSlash cs) with
        | [] => ['/']
        | s :: ss => '/' :: joinSegs (s :: ss)
      else
        match cleanStack false [] (splitSlash cs) with
        | [] => ['.']
        | s :: ss => joinSegs (s :: ss)

/-- Go path.Clean. -/
def goClean (p : String) : String := String.mk (goCleanChars p.data)

/-- Go path.Join on two elements: empty elements are dropped, the rest are
joined with a separator and cleaned; all-empty input yields the empty
string. -/
def goPathJoin (base ep : String) : String :=
  if base = "" then (if ep = "" then "" else goClean ep)
  else if ep = "" then goClean base
  else goClean (base ++ "/" ++ ep)

/-- Embedding of joinURL from cryptomus.go, on the base address's path
component (url.Parse / URL.String carry scheme and host through
unchanged, and url.Parse does not fail on the URLs this client builds,
so the error return is dropped in the model). -/
def joinURL (basePath endpoint : String) : String :=
  goPathJoin basePath endpoint

/-! ### The client and the request dispatcher (cryptomus.go) -/

/-- The Cryptomus client configuration. The injected *http.Client is the
transport collaborator and is passed explicitly to each operation; the
`baseURL` field carries the path component of the configured base
address (see `joinURL`). -/
structure Cryptomus where
  baseURL : String
  merchantID : String
  paymentApiKey : String
  payoutApiKey : String
deriving DecidableEq

/-- The outbound HTTP request fetch hands to the transport: method, the
joined URL path, the three headers fetch sets, and the body bytes. -/
structure BuiltRequest where
  method : String
  url : String
  contentType : String
  merchant : String
  sign : String
  body : List Byte
deriving DecidableEq

/-- Embedding of fetch from cryptomus.go (the joinURL revision): a nil
payload keeps `bodyBytes` as the empty byte slice, a non-nil payload is
marshaled; the signature is computed with the payment API key over those
same bytes, the URL is joined, and the request is assembled with the
Content-Type, merchant and sign headers. The model returns the fully
built request; executing it is the transport collaborator's job. -/
def fetchBuild (c : Cryptomus) (method endpoint : String)
    (payload : Option JValue) : Except String BuiltRequest :=
  let bodyBytes : List Byte :=
    match payload with
    | none => []
    | some p => utf8Bytes (marshalJ p)
  match signRequest c.paymentApiKey bodyBytes with
  | .error e => .error e
  | .ok sign =>
      .ok ⟨method, joinURL c.baseURL endpoint, "application/json",
        c.merchantID, sign, bodyBytes⟩

/-- Errors a domain operation can surface (error_handling taxonomy). -/
inductive GoError where
  | localPrecondition (msg : String)
  | fetchError (msg : String)
  | transportError (msg : String)
  | httpStatus (status : Nat)
  | decodeError (msg : String)
  | validationErrors (errs : List (String × List String))
  | stateError (state : Int)
  | emptyResult (msg : String)
deriving DecidableEq

/-! ### Recurring-payment operations (sign.go recurrence section)

The typed request/response shapes follow the Go structs field for field;
`*time.Time` values are carried as their RFC3339 JSON text, `*int` as
`Option Int`, the `int8` state as `Int`. A nilable map or pointer field
is an `Option`; a decoded `errors` object is `some` exactly when the Go
map is non-nil (JSON `errors: ` with an empty object decodes to a
non-nil empty map). Each operation takes its transport collaborator
`net` explicitly: `net` receives the built request and returns either a
transport error or the HTTP status together with the body's decode
result. Every operation also returns the list of requests the transport
was invoked on, so that "no network call" is a statement of the model. -/

def createRecurrenceEndpoint : String := "/recurrence/create"

def recurrenceInfoEndpoint : String := "/recurrence/info"

def recurrenceListEndpoint : String := "/recurrence/list"

def recurrenceCancelEndpoint : String := "/recurrence/cancel"

/-- The Recurrence response object (sign.go). -/
structure Recurrence where
  uuid : String
  name : String
  orderId : String
  amount : String
  currency : String
  payerCurrency : String
  payerAmountUSD : String
  payerAmount : String
  urlCallback : String
  period : String
  status : String
  url : String
  lastPayOff : Option String
  discountDays : Option Int
  discountAmount : String
  endOfDiscount : Option String
  additionalData : String
deriving DecidableEq

/-- The map of field name to validation messages (Go map[string][]string),
carried as its entry list. -/
abbrev ErrorsMap := List (String × List String)

/-- recurrenceRawResponse (CreateRecurrence envelope). -/
structure RecurrenceRawResponse where
  state : Int
  result : Option Recurrence
deriving DecidableEq

/-- RecurrenceInfoRequest: both fields have omitempty JSON tags. -/
structure RecurrenceInfoRequest where
  uuid : String
  orderId : String
deriving DecidableEq

/-- recurrenceInfoRawResponse (GetRecurrenceInfo envelope). -/
structure RecurrenceInfoRawResponse where
  state : Int
  result : Option Recurrence
  errors : Option ErrorsMap
deriving DecidableEq

/-- RecurrenceCancelRequest: both fields have omitempty JSON tags. -/
structure RecurrenceCancelRequest where
  uuid : String
  orderId : String
deriving DecidableEq

/-- recurrenceCancelRawResponse (CancelRecurrence envelope). -/
structure RecurrenceCancelRawResponse where
  state : Int
  result : Option Recurrence
  errors : Option ErrorsMap
deriving DecidableEq

/-- Pagination block of the recurrence list response. -/
structure RecurrencePaginate where
  count : Int
  hasPages : Bool
  nextCursor : String
  previousCursor : String
  perPage : Int
deriving DecidableEq

/-- RecurrenceListResponse (items plus pagination). -/
structure RecurrenceListResponse where
  items : List Recurrence
  paginate : Option RecurrencePaginate
deriving DecidableEq

/-- recurrenceListRawResponse (ListRecurrences envelope). -/
structure RecurrenceListRawResponse where
  state : Int
  result : Option RecurrenceListResponse
deriving DecidableEq

/-- JSON payload of a RecurrenceInfoRequest under its omitempty tags. -/
def RecurrenceInfoRequest.toJson (r : RecurrenceInfoRequest) : JValue :=
  .obj ((if r.uuid = "" then [] else [("uuid", .str r.uuid)])
    ++ (if r.orderId = "" then [] else [("order_id", .str r.orderId)]))

/-- JSON payload of a RecurrenceCancelRequest under its omitempty tags. -/
def RecurrenceCancelRequest.toJson (r : RecurrenceCancelRequest) : JValue :=
  .obj ((if r.uuid = "" then [] else [("uuid", .str r.uuid)])
    ++ (if r.orderId = "" then [] else [("order_id", .str r.orderId)]))

/-- What the transport collaborator hands back for an operation whose
body decodes into `α`: the HTTP status and the body's decode outcome.
The whole thing is `Except` a transport failure from client.Do. -/
abbrev NetResult (α : Type) := Except String (Nat × Except String α)

/-- Envelope handling CreateRecurrence applies on a 200 response:
nonzero state is a state error, a nil result is an empty-result error,
otherwise the result is returned. -/
def handleCreateRecurrenceResponse (resp : RecurrenceRawResponse) :
    Except GoError Recurrence :=
  if resp.state ≠ 0 then .error (.stateError resp.state)
  else
    match resp.result with
    | none => .error (.emptyResult "API response result is nil")
    | some r => .ok r

/-- Envelope handling GetRecurrenceInfo applies on a 200 response: with a
nonzero state, a non-nil errors map (empty or not) becomes a validation
error, otherwise the state code is surfaced; with state zero a nil
result is an empty-result error and a present result is returned. -/
def handleRecurrenceInfoResponse (resp : RecurrenceInfoRawResponse) :
    Except GoError Recurrence :=
  if resp.state ≠ 0 then
    match resp.errors with
    | some m => .error (.validationErrors m)
    | none => .error (.stateError resp.state)
  else
    match resp.result with
    | none => .error (.emptyResult "API response result is nil")
    | some r => .ok r

/-- Envelope handling CancelRecurrence applies on a 200 response; same
discipline as `handleRecurrenceInfoResponse`. -/
def handleRecurrenceCancelResponse (resp : RecurrenceCancelRawResponse) :
    Except GoError Recurrence :=
  if resp.state ≠ 0 then
    match resp.errors with
    | some m => .error (.validationErrors m)
    | none => .error (.stateError resp.state)
  else
    match resp.result with
    | none => .error (.emptyResult "API response result is nil")
    | some r => .ok r

/-- Envelope handling ListRecurrences applies on a 200 response. -/
def handleRecurrenceListResponse (resp : RecurrenceListRawResponse) :
    Except GoError RecurrenceListResponse :=
  if resp.state ≠ 0 then .error (.stateError resp.state)
  else
    match resp.result with
    | none => .error (.emptyResult "API response result is nil")
    | some r => .ok r

/-- Embedding of GetRecurrenceInfo: nil request and all-empty identifiers
are rejected locally; otherwise the request is built and dispatched, a
non-200 status is reported (preferring a decodable validation map), and
a 200 body is decoded and handled. The second component lists the
requests the transport performed. -/
def GetRecurrenceInfo (c : Cryptomus)
    (net : BuiltRequest → NetResult RecurrenceInfoRawResponse)
    (infoReq : Option RecurrenceInfoRequest) :
    Except GoError Recurrence × List BuiltRequest :=
  match infoReq with
  | none => (.error (.localPrecondition "recurrence info request cannot be nil"), [])
  | some r =>
      if r.uuid = "" ∧ r.orderId = "" then
        (.error (.localPrecondition "either uuid or order_id must be provided"), [])
      else
        match fetchBuild c "POST" recurrenceInfoEndpoint (some r.toJson) with
        | .error e => (.error (.fetchError e), [])
        | .ok req =>
            match net req with
            | .error e => (.error (.transportError e), [req])
            | .ok (status, decoded) =>
                if status ≠ 200 then
                  match decoded with
                  | .ok er =>
                      match er.errors with
                      | some m => (.error (.validationErrors m), [req])
                      | none => (.error (.httpStatus status), [req])
                  | .error _ => (.error (.httpStatus status), [req])
                else
                  match decoded with
                  | .error msg => (.error (.decodeError msg), [req])
                  | .ok resp => (handleRecurrenceInfoResponse resp, [req])

/-- Embedding of CancelRecurrence; mirrors `GetRecurrenceInfo` with the
cancel endpoint and envelope. -/
def CancelRecurrence (c : Cryptomus)
    (net : BuiltRequest → NetResult RecurrenceCancelRawResponse)
    (cancelReq : Option RecurrenceCancelRequest) :
    Except GoError Recurrence × List BuiltRequest :=
  match cancelReq with
  | none => (.error (.localPrecondition "recurrence cancel request cannot be nil"), [])
  | some r =>
      if r.uuid = "" ∧ r.orderId = "" then
        (.error (.localPrecondition "either uuid or order_id must be provided"), [])
      else
        match fetchBuild c "POST" recurrenceCancelEndpoint (some r.toJson) with
        | .error e => (.error (.fetchError e), [])
        | .ok req =>
            match net req with
            | .error e => (.error (.transportError e), [req])
            | .ok (status, decoded) =>
                if status ≠ 200 then
                  match decoded with
                  | .ok er =>
                      match er.errors with
                      | some m => (.error (.validationErrors m), [req])
                      | none => (.error (.httpStatus status), [req])
                  | .error _ => (.error (.httpStatus status), [req])
                else
                  match decoded with
                  | .error msg => (.error (.decodeError msg), [req])
                  | .ok resp => (handleRecurrenceCancelResponse resp, [req])

/-! ### Exchange-rate operations (exchange.go, both revisions) -/

/-- One exchange-rate entry; the JSON names are from, to and course. -/
structure ExchangeRate where
  fromCurrency : String
  toCurrency : String
  course : String
deriving DecidableEq

/-- exchangeRateListRawResponse: a JSON null result decodes into a nil
slice, so the result field is carried as a plain (possibly empty) list. -/
structure ExchangeRateListRawResponse where
  state : Int
  result : List ExchangeRate
deriving DecidableEq

/-- fmt.Sprintf of the exchange-rate endpoint template with the currency
substituted. -/
def exchangeRateListEndpoint (currency : String) : String :=
  "/v1/exchange-rate/" ++ currency ++ "/list"

/-- Go strings.TrimSpace white-space test (ASCII and Latin-1 white space;
the wider Unicode space classes do not occur in the claims). -/
def isGoSpace (c : Char) : Bool :=
  c = ' ' ∨ c = '\t' ∨ c = '\n' ∨ c.toNat = 11 ∨ c.toNat = 12 ∨ c = '\r'
    ∨ c.toNat = 133 ∨ c.toNat = 160

/-- Go strings.TrimSpace: strip white space from both ends. -/
def trimSpace (s : String) : String :=
  String.mk (((s.data.dropWhile isGoSpace).reverse.dropWhile isGoSpace).reverse)

/-- Envelope handling of the first ListExchangeRates revision
(exchange.go lines 29-56): nonzero state errors, and otherwise the
decoded result slice is returned as-is — with no emptiness check. -/
def handleExchangeRatesV1Response (resp : ExchangeRateListRawResponse) :
    Except GoError (List ExchangeRate) :=
  if resp.state ≠ 0 then .error (.stateError resp.state)
  else .ok resp.result

/-- Envelope handling of the second ListExchangeRates revision
(exchange.go lines 87-134): nonzero state errors, and an empty result
list is rejected as an empty exchange-rate list. -/
def handleExchangeRatesV2Response (resp : ExchangeRateListRawResponse) :
    Except GoError (List ExchangeRate) :=
  if resp.state ≠ 0 then .error (.stateError resp.state)
  else if resp.result.length = 0 then
    .error (.emptyResult "exchange rate list is empty")
  else .ok resp.result

/-- Embedding of the first ListExchangeRates revision: empty currency is
rejected locally, then a GET with nil payload is dispatched and the body
decoded (this revision reads the body without a status check). -/
def ListExchangeRatesV1 (c : Cryptomus)
    (net : BuiltRequest → Except String (Except String ExchangeRateListRawResponse))
    (currency : String) :
    Except GoError (List ExchangeRate) × List BuiltRequest :=
  if currency = "" then
    (.error (.localPrecondition "currency parameter is required"), [])
  else
    match fetchBuild c "GET" (exchangeRateListEndpoint currency) none with
    | .error e => (.error (.fetchError e), [])
    | .ok req =>
        match net req with
        | .error e => (.error (.transportError e), [req])
        | .ok decoded =>
            match decoded with
            | .error msg => (.error (.decodeError msg), [req])
            | .ok resp => (handleExchangeRatesV1Response resp, [req])

/-- Embedding of the second ListExchangeRates revision: the currency is
trimmed and rejected locally when blank; a non-200 status surfaces the
probed message field when one decodes, and a 200 body is decoded and
handled with the emptiness check. `net` returns the status, the decode
of the error-message probe, and the decode of the raw response. -/
def ListExchangeRatesV2 (c : Cryptomus)
    (net : BuiltRequest →
      Except String (Nat × Option String × Except String ExchangeRateListRawResponse))
    (currency : String) :
    Except GoError (List ExchangeRate) × List BuiltRequest :=
  let currency := trimSpace currency
  if currency = "" then
    (.error (.localPrecondition "currency parameter is required"), [])
  else
    match fetchBuild c "GET" (exchangeRateListEndpoint currency) none with
    | .error e => (.error (.fetchError e), [])
    | .ok req =>
        match net req with
        | .error e => (.error (.transportError e), [req])
        | .ok (status, message, decoded) =>
            if status ≠ 200 then
              match message with
              | some _ => (.error (.httpStatus status), [req])
              | none => (.error (.httpStatus status), [req])
            else
              match decoded with
              | .error msg => (.error (.decodeError msg), [req])
              | .ok resp => (handleExchangeRatesV2Response resp, [req])

/-! ### Observations on built paths (for the path-joining claims) -/

/-- The non-empty slash-separated segments of a path string. -/
def segsOf (s : String) : List (List Char) :=
  (splitSlash s.data).filter fun seg => seg ≠ []

/-- True when no two adjacent characters are both separators, i.e. the
rendered path has no duplicate path separator anywhere. -/
def noDoubleSlash : List Char → Bool
  | a :: b :: rest => !(a = '/' && b = '/') && noDoubleSlash (b :: rest)
  | _ => true

/-! ## Helper lemmas -/

/-- Every nibble renders to one of the sixteen lowercase hex characters. -/
theorem hexDigit_mem (n : Nat) : hexDigit n ∈ hexAlphabet := by
  unfold hexDigit
  by_cases h : n < hexAlphabet.length
  · rw [List.getD_eq_getElem _ _ h]
    exact List.getElem_mem h
  · rw [List.getD_eq_default _ _ (Nat.le_of_not_lt h)]
    decide

/-- Every character the hex encoder emits is a lowercase hex character. -/
theorem hexChars_mem (bs : List Byte) : ∀ c ∈ hexChars bs, c ∈ hexAlphabet := by
  induction bs with
  | nil => simp [hexChars]
  | cons b rest ih =>
      intro c hc
      simp only [hexChars, List.mem_cons] at hc
      rcases hc with h | h | h
      · exact h ▸ hexDigit_mem _
      · exact h ▸ hexDigit_mem _
      · exact ih c h

/-- The hex encoder writes two characters per byte. -/
theorem hexChars_length (bs : List Byte) : (hexChars bs).length = 2 * bs.length := by
  induction bs with
  | nil => simp [hexChars]
  | cons b rest ih => simp [hexChars, ih]; omega

/-- An MD5 digest is sixteen bytes. -/
theorem md5Sum_length (msg : List Byte) : (md5Sum msg).length = 16 := by
  simp [md5Sum, md5Finish, toLE4]

/-- A non-empty key makes signRequest succeed with the digest. -/
theorem signRequest_ok (apiKey : String) (reqBody : List Byte)
    (hKey : apiKey ≠ "") :
    signRequest apiKey reqBody =
      .ok (hexEncodeToString
        (md5Sum (utf8Bytes (base64StdEncode reqBody ++ apiKey)))) := by
  simp [signRequest, hKey]

/-! ## Claim theorems -/

/-- C1: for every non-empty key K and byte sequence B, signRequest(K, B)
succeeds and returns exactly the lowercase hexadecimal encoding of the
MD5 digest of the UTF-8 bytes of the string base64(B) ++ K — standard
base64 of B with the key appended as a suffix; the digest is 32
characters drawn from the lowercase hex alphabet. -/
theorem signRequest_md5_hex (apiKey : String) (reqBody : List Byte)
    (hKey : apiKey ≠ "") :
    ∃ digest,
      signRequest apiKey reqBody = .ok digest ∧
      digest = hexEncodeToString
        (md5Sum (utf8Bytes (base64StdEncode reqBody ++ apiKey))) ∧
      digest.length = 32 ∧
      ∀ c ∈ digest.data, c ∈ hexAlphabet := by
  refine ⟨_, signRequest_ok apiKey reqBody hKey, rfl, ?_, ?_⟩
  · show (String.mk _).length = 32
    have h1 := hexChars_length (md5Sum (utf8Bytes (base64StdEncode reqBody ++ apiKey)))
    have h2 := md5Sum_length (utf8Bytes (base64StdEncode reqBody ++ apiKey))
    simp only [String.length, hexEncodeToString]
    omega
  · intro c hc
    exact hexChars_mem _ c hc

/-- C1 witness: the theorem applied at a concrete non-empty key and body. -/
theorem signRequest_md5_hex_witness :
    ("payment-key" : String) ≠ "" ∧
    ∃ digest,
      signRequest "payment-key" [1, 2, 3] = .ok digest ∧
      digest = hexEncodeToString
        (md5Sum (utf8Bytes (base64StdEncode [1, 2, 3] ++ "payment-key"))) ∧
      digest.length = 32 ∧
      ∀ c ∈ digest.data, c ∈ hexAlphabet :=
  ⟨by decide, signRequest_md5_hex "payment-key" [1, 2, 3] (by decide)⟩

/-- C7: signing with the empty key fails with the empty-key error for
every byte sequence, and no digest is produced. -/
theorem signRequest_empty_key_fails (reqBody : List Byte) :
    signRequest "" reqBody = .error "API key cannot be empty" := by
  simp [signRequest]

/-- C2: VerifySign on a decoded JSON object succeeds exactly when the
string-typed sign field equals signRequest of the re-marshaled object
with the sign field removed; an absent or non-string sign field is a
missing-signature error, and a failed comparison is an invalid-signature
error. -/
theorem VerifySign_iff_signature_matches (apiKey : String)
    (body : List (String × JValue)) :
    (goIndexString body "sign" = none →
      VerifySign apiKey body = .error .missingSignature) ∧
    (VerifySign apiKey body = .ok () ↔
      ∃ s expected, goIndexString body "sign" = some s ∧
        signRequest apiKey (utf8Bytes (goMarshalMap (deleteKey body "sign")))
          = .ok expected ∧
        s = expected) ∧
    (∀ s expected, goIndexString body "sign" = some s →
      signRequest apiKey (utf8Bytes (goMarshalMap (deleteKey body "sign")))
        = .ok expected →
      s ≠ expected →
      VerifySign apiKey body = .error .invalidSignature) := by
  refine ⟨fun h => by simp [VerifySign, h], ⟨fun h => ?_, ?_⟩, fun s exp hidx hsig hne => ?_⟩
  · rcases hidx : goIndexString body "sign" with _ | s
    · simp [VerifySign, hidx] at h
    · rcases hsig : signRequest apiKey (utf8Bytes (goMarshalMap (deleteKey body "sign"))) with e | exp
      · simp [VerifySign, hidx, hsig] at h
      · by_cases heq : s = exp
        · exact ⟨s, exp, rfl, rfl, heq⟩
        · simp [VerifySign, hidx, hsig, heq] at h
  · rintro ⟨s, exp, hidx, hsig, rfl⟩
    simp [VerifySign, hidx, hsig]
  · simp [VerifySign, hidx, hsig, hne]

/-- C2 witness: a body without a sign field is rejected with the
missing-signature error. -/
theorem VerifySign_iff_signature_matches_witness :
    goIndexString [("amount", JValue.str "5")] "sign" = none ∧
    VerifySign "payment-key" [("amount", JValue.str "5")]
      = .error .missingSignature :=
  ⟨rfl, (VerifySign_iff_signature_matches "payment-key"
    [("amount", JValue.str "5")]).1 rfl⟩

/-- C3: contrary to the claim, the deserialize-then-filter-then-reserialize
step of VerifySign does not preserve the received field order: the body
arrives with b before a, but the Go map marshaling emits the keys
sorted, so the re-serialized bytes differ from the order-preserving
serialization the spec demands. -/
theorem verifySign_reserialization_sorted_not_received_order :
    goMarshalMap (deleteKey
        [("b", JValue.num "1"), ("a", JValue.num "2"), ("sign", JValue.str "x")]
        "sign")
      = "\x7b\"a\":2,\"b\":1\x7d" ∧
    marshalPreservingReceivedOrder (deleteKey
        [("b", JValue.num "1"), ("a", JValue.num "2"), ("sign", JValue.str "x")]
        "sign")
      = "\x7b\"b\":1,\"a\":2\x7d" ∧
    goMarshalMap (deleteKey
        [("b", JValue.num "1"), ("a", JValue.num "2"), ("sign", JValue.str "x")]
        "sign")
      ≠ marshalPreservingReceivedOrder (deleteKey
        [("b", JValue.num "1"), ("a", JValue.num "2"), ("sign", JValue.str "x")]
        "sign") := by
  refine ⟨?_, ?_, ?_⟩ <;> decide

/-- C4: every request fetch builds carries in its sign header the
signature of exactly the body bytes attached to the request, and a nil
payload (a GET with no body) is signed over the empty byte sequence. -/
theorem fetch_signs_exact_sent_bytes (c : Cryptomus)
    (method endpoint : String) (payload : Option JValue)
    (hKey : c.paymentApiKey ≠ "") :
    ∃ req, fetchBuild c method endpoint payload = .ok req ∧
      signRequest c.paymentApiKey req.body = .ok req.sign ∧
      req.body = (match payload with
        | none => ([] : List Byte)
        | some p => utf8Bytes (marshalJ p)) := by
  cases payload with
  | none =>
      simp only [fetchBuild]
      rw [signRequest_ok _ _ hKey]
      exact ⟨_, rfl, signRequest_ok _ _ hKey, rfl⟩
  | some p =>
      simp only [fetchBuild]
      rw [signRequest_ok _ _ hKey]
      exact ⟨_, rfl, signRequest_ok _ _ hKey, rfl⟩

/-- C4 witness: the theorem applied to a concrete client and a GET
request with nil payload; the signed body is the empty byte sequence. -/
theorem fetch_signs_exact_sent_bytes_witness :
    (Cryptomus.paymentApiKey ⟨"/v1", "merchant", "payment-key", "payout-key"⟩ ≠ "") ∧
    ∃ req, fetchBuild ⟨"/v1", "merchant", "payment-key", "payout-key"⟩
        "GET" "/v1/exchange-rate/USDT/list" none = .ok req ∧
      signRequest "payment-key" req.body = .ok req.sign ∧
      req.body = [] :=
  ⟨by decide, fetch_signs_exact_sent_bytes
    ⟨"/v1", "merchant", "payment-key", "payout-key"⟩
    "GET" "/v1/exchange-rate/USDT/list" none (by decide)⟩

/-- C5: contrary to the claim, the cited ListExchangeRates revision
returns success with an empty rate list on a response with state zero
and a null (nil-decoded) result — there is no empty-result check — while
CreateRecurrence and the later ListExchangeRates revision do surface the
empty-result error the claim describes. -/
theorem exchange_state0_empty_result :
    handleExchangeRatesV1Response ⟨0, []⟩ = .ok [] ∧
    handleCreateRecurrenceResponse ⟨0, none⟩
      = .error (.emptyResult "API response result is nil") ∧
    handleExchangeRatesV2Response ⟨0, []⟩
      = .error (.emptyResult "exchange rate list is empty") := by
  refine ⟨?_, ?_, ?_⟩ <;> decide

/-- C6 counterexample: a GetRecurrenceInfo response with nonzero state
and a present-but-empty errors object is surfaced as a validation error
carrying the empty map, not as the state error the claim requires for an
empty errors map. -/
theorem info_empty_errors_map_validation_error :
    handleRecurrenceInfoResponse ⟨1, none, some []⟩
      = .error (.validationErrors []) ∧
    handleRecurrenceInfoResponse ⟨1, none, some []⟩
      ≠ .error (.stateError 1) := by
  refine ⟨?_, ?_⟩ <;> decide

/-- C6 amended: on an HTTP-success response with nonzero state every
domain operation yields an error and never a success value: operations
whose envelope has an errors field (info, cancel) surface a validation
error carrying the map whenever it decoded non-nil — even when empty —
and the state error otherwise; operations without an errors field
(create, recurrence list, both exchange-rate revisions) always surface
the state error. -/
theorem nonzero_state_yields_error
    (rr : RecurrenceRawResponse) (ri : RecurrenceInfoRawResponse)
    (rc : RecurrenceCancelRawResponse) (rl : RecurrenceListRawResponse)
    (re : ExchangeRateListRawResponse)
    (hrr : rr.state ≠ 0) (hri : ri.state ≠ 0) (hrc : rc.state ≠ 0)
    (hrl : rl.state ≠ 0) (hre : re.state ≠ 0) :
    handleCreateRecurrenceResponse rr = .error (.stateError rr.state) ∧
    handleRecurrenceInfoResponse ri = .error (match ri.errors with
      | some m => .validationErrors m
      | none => .stateError ri.state) ∧
    handleRecurrenceCancelResponse rc = .error (match rc.errors with
      | some m => .validationErrors m
      | none => .stateError rc.state) ∧
    handleRecurrenceListResponse rl = .error (.stateError rl.state) ∧
    handleExchangeRatesV1Response re = .error (.stateError re.state) ∧
    handleExchangeRatesV2Response re = .error (.stateError re.state) := by
  refine ⟨?_, ?_, ?_, ?_, ?_, ?_⟩
  · simp [handleCreateRecurrenceResponse, hrr]
  · cases h : ri.errors <;> simp [handleRecurrenceInfoResponse, hri, h]
  · cases h : rc.errors <;> simp [handleRecurrenceCancelResponse, hrc, h]
  · simp [handleRecurrenceListResponse, hrl]
  · simp [handleExchangeRatesV1Response, hre]
  · simp [handleExchangeRatesV2Response, hre]

/-- C6 amended witness: concrete nonzero-state responses, including the
create-recurrence response with state one and null result from the
claim, which yields the state error for code one. -/
theorem nonzero_state_yields_error_witness :
    ((1 : Int) ≠ 0) ∧ ((2 : Int) ≠ 0) ∧ ((3 : Int) ≠ 0) ∧
    handleCreateRecurrenceResponse ⟨1, none⟩ = .error (.stateError 1) ∧
    handleRecurrenceInfoResponse ⟨2, none, some [("amount", ["required"])]⟩
      = .error (.validationErrors [("amount", ["required"])]) ∧
    handleRecurrenceCancelResponse ⟨3, none, none⟩ = .error (.stateError 3) ∧
    handleRecurrenceListResponse ⟨1, none⟩ = .error (.stateError 1) ∧
    handleExchangeRatesV1Response ⟨1, []⟩ = .error (.stateError 1) ∧
    handleExchangeRatesV2Response ⟨1, []⟩ = .error (.stateError 1) :=
  ⟨by decide, by decide, by decide,
    (nonzero_state_yields_error ⟨1, none⟩ ⟨2, none, some [("amount", ["required"])]⟩
      ⟨3, none, none⟩ ⟨1, none⟩ ⟨1, []⟩
      (by decide) (by decide) (by decide) (by decide) (by decide)).1,
    (nonzero_state_yields_error ⟨1, none⟩ ⟨2, none, some [("amount", ["required"])]⟩
      ⟨3, none, none⟩ ⟨1, none⟩ ⟨1, []⟩
      (by decide) (by decide) (by decide) (by decide) (by decide)).2⟩

/-- C8: GetRecurrenceInfo and CancelRecurrence reject a request whose
uuid and order id are both empty with a local precondition error, and
the injected transport is never invoked (the performed-request log stays
empty), for every client and every transport. -/
theorem recurrence_ops_reject_empty_ids_locally (c : Cryptomus)
    (netInfo : BuiltRequest → NetResult RecurrenceInfoRawResponse)
    (netCancel : BuiltRequest → NetResult RecurrenceCancelRawResponse) :
    GetRecurrenceInfo c netInfo (some ⟨"", ""⟩)
      = (.error (.localPrecondition "either uuid or order_id must be provided"), []) ∧
    CancelRecurrence c netCancel (some ⟨"", ""⟩)
      = (.error (.localPrecondition "either uuid or order_id must be provided"), []) :=
  ⟨rfl, rfl⟩

/-- C10: both ListExchangeRates revisions reject a blank currency with a
local precondition error before any network call: the first revision on
the empty string, the trimming revision on every string that trims to
empty; in each case the performed-request log stays empty, so an empty
currency is never interpolated into the endpoint. -/
theorem listExchangeRates_blank_currency_local_error :
    (∀ (c : Cryptomus)
      (net : BuiltRequest → Except String (Except String ExchangeRateListRawResponse)),
      ListExchangeRatesV1 c net ""
        = (.error (.localPrecondition "currency parameter is required"), [])) ∧
    (∀ (c : Cryptomus)
      (net : BuiltRequest →
        Except String (Nat × Option String × Except String ExchangeRateListRawResponse))
      (s : String), trimSpace s = "" →
      ListExchangeRatesV2 c net s
        = (.error (.localPrecondition "currency parameter is required"), [])) := by
  refine ⟨fun c net => rfl, fun c net s h => ?_⟩
  simp only [ListExchangeRatesV2, h]
  rfl

/-- C10 witness: the trimming revision applied to a whitespace-only
currency rejects locally with no transport call. -/
theorem listExchangeRates_blank_currency_local_error_witness :
    trimSpace "   " = "" ∧
    ListExchangeRatesV2 ⟨"/v1", "merchant", "payment-key", "payout-key"⟩
        (fun _ => .error "network unavailable") "   "
      = (.error (.localPrecondition "currency parameter is required"), []) :=
  ⟨by decide, (listExchangeRates_blank_currency_local_error).2
    ⟨"/v1", "merchant", "payment-key", "payout-key"⟩
    (fun _ => .error "network unavailable") "   " (by decide)⟩

/-! ## Path-joining lemmas (for C9) -/

/-- Splitting always yields at least one part. -/
theorem splitSlash_ne_nil (cs : List Char) : splitSlash cs ≠ [] := by
  induction cs with
  | nil => simp [splitSlash]
  | cons c rest ih =>
      cases h : splitSlash rest with
      | nil => exact absurd h ih
      | cons s ss =>
          simp only [splitSlash, h]
          split <;> simp

/-- Head-step equation of the splitter in terms of the split tail. -/
theorem splitSlash_cons (c : Char) (rest : List Char) :
    splitSlash (c :: rest) =
      if c = '/' then [] :: splitSlash rest
      else (c :: (splitSlash rest).headD []) :: (splitSlash rest).tail := by
  cases h : splitSlash rest with
  | nil => exact absurd h (splitSlash_ne_nil rest)
  | cons s ss =>
      simp only [splitSlash, h]
      split <;> simp

/-- Splitting distributes over an interior separator. -/
theorem splitSlash_append_slash (xs ys : List Char) :
    splitSlash (xs ++ '/' :: ys) = splitSlash xs ++ splitSlash ys := by
  induction xs with
  | nil =>
      cases h : splitSlash ys with
      | nil => exact absurd h (splitSlash_ne_nil ys)
      | cons s ss => simp [splitSlash, h]
  | cons c rest ih =>
      rw [List.cons_append, splitSlash_cons, splitSlash_cons, ih]
      cases h : splitSlash rest with
      | nil => exact absurd h (splitSlash_ne_nil rest)
      | cons s ss => split <;> simp

/-- No part produced by splitting contains a separator. -/
theorem mem_splitSlash_no_slash (cs : List Char) :
    ∀ s ∈ splitSlash cs, '/' ∉ s := by
  induction cs with
  | nil =>
      intro s hs
      simp only [splitSlash, List.mem_singleton] at hs
      simp [hs]
  | cons c rest ih =>
      intro s hs
      rw [splitSlash_cons] at hs
      by_cases hc : c = '/'
      · rw [if_pos hc] at hs
        rcases List.mem_cons.mp hs with rfl | hs
        · simp
        · exact ih s hs
      · rw [if_neg hc] at hs
        rcases List.mem_cons.mp hs with rfl | hs
        · intro hm
          rcases List.mem_cons.mp hm with he | hm
          · exact hc he.symm
          · cases h : splitSlash rest with
            | nil => exact absurd h (splitSlash_ne_nil rest)
            | cons t ts =>
                rw [h, List.headD_cons] at hm
                exact ih t (h ▸ List.mem_cons_self _ _) hm
        · cases h : splitSlash rest with
          | nil => exact absurd h (splitSlash_ne_nil rest)
          | cons t ts =>
              rw [h, List.tail_cons] at hs
              exact ih s (h ▸ List.mem_cons_of_mem _ hs)

/-- A separator-free character list splits into exactly itself. -/
theorem splitSlash_no_slash (cs : List Char) (h : '/' ∉ cs) :
    splitSlash cs = [cs] := by
  induction cs with
  | nil => simp [splitSlash]
  | cons c rest ih =>
      have hc : ¬(c = '/') := fun e => h (by simp [e])
      have hr : '/' ∉ rest := fun m => h (List.mem_cons_of_mem _ m)
      simp [splitSlash, ih hr, hc]

/-- Joining separator-free parts and re-splitting recovers the parts. -/
theorem splitSlash_joinSegs (ss : List (List Char)) (hne : ss ≠ [])
    (h : ∀ s ∈ ss, '/' ∉ s) : splitSlash (joinSegs ss) = ss := by
  induction ss with
  | nil => exact absurd rfl hne
  | cons s rest ih =>
      cases rest with
      | nil =>
          simp only [joinSegs]
          exact splitSlash_no_slash s (h s (List.mem_cons_self _ _))
      | cons t ts =>
          simp only [joinSegs]
          rw [splitSlash_append_slash,
            splitSlash_no_slash s (h s (List.mem_cons_self _ _)),
            ih (by simp) (fun u hu => h u (List.mem_cons_of_mem _ hu))]
          rfl

/-- With no dot or dot-dot elements, the clean stack discipline reduces
to dropping the empty parts. -/
theorem cleanStack_no_dots (segs : List (List Char)) :
    ∀ (rooted : Bool) (acc : List (List Char)),
    (∀ s ∈ segs, s ≠ [] → (s ≠ ['.'] ∧ s ≠ ['.', '.'])) →
    cleanStack rooted acc segs = acc.reverse ++ segs.filter (fun s => s ≠ []) := by
  induction segs with
  | nil => intro rooted acc _; simp [cleanStack]
  | cons s rest ih =>
      intro rooted acc h
      have hrest : ∀ u ∈ rest, u ≠ [] → (u ≠ ['.'] ∧ u ≠ ['.', '.']) :=
        fun u hu => h u (List.mem_cons_of_mem _ hu)
      by_cases hs : s = []
      · subst hs
        simp [cleanStack, ih rooted acc hrest]
      · have hd := h s (List.mem_cons_self _ _) hs
        have hbranch : ¬(s = [] ∨ s = ['.']) := by
          rintro (he | he)
          · exact hs he
          · exact hd.1 he
        simp only [cleanStack, if_neg hbranch, if_neg hd.2]
        rw [ih rooted (s :: acc) hrest]
        simp [hs]

/-- Dropping the head preserves the no-duplicate-separator property. -/
theorem noDoubleSlash_tail (c : Char) (l : List Char)
    (h : noDoubleSlash (c :: l) = true) : noDoubleSlash l = true := by
  cases l with
  | nil => rfl
  | cons a t =>
      simp only [noDoubleSlash, Bool.and_eq_true] at h
      exact h.2

/-- Prefixing any character to a separator-free list never creates a
duplicate separator. -/
theorem noDoubleSlash_cons_of_no_slash (c : Char) (s : List Char)
    (h : '/' ∉ s) : noDoubleSlash (c :: s) = true := by
  induction s generalizing c with
  | nil => rfl
  | cons a t ih =>
      have ha : ¬(a = '/') := fun e => h (by simp [e])
      have ht : '/' ∉ t := fun m => h (List.mem_cons_of_mem _ m)
      simp [noDoubleSlash, ha, ih a ht]

/-- Gluing a separator-free non-empty part in front of a separator-led
well-formed tail keeps separators isolated. -/
theorem noDoubleSlash_glue (s : List Char) (J : List Char) :
    ∀ (c : Char), '/' ∉ s → s ≠ [] → noDoubleSlash ('/' :: J) = true →
    noDoubleSlash (c :: (s ++ '/' :: J)) = true := by
  induction s with
  | nil => intro c _ hne _; exact absurd rfl hne
  | cons a t ih =>
      intro c hs hne hJ
      have ha : ¬(a = '/') := fun e => hs (by simp [e])
      cases t with
      | nil =>
          simp [noDoubleSlash, ha, hJ]
      | cons b u =>
          have step := ih a (fun m => hs (List.mem_cons_of_mem _ m)) (by simp) hJ
          simp only [List.cons_append] at step ⊢
          simp only [noDoubleSlash, Bool.and_eq_true] at step ⊢
          exact ⟨by simp [ha], step⟩

/-- A rooted join of non-empty separator-free parts has no duplicate
separators. -/
theorem noDoubleSlash_slash_joinSegs (ss : List (List Char))
    (h : ∀ s ∈ ss, s ≠ [] ∧ '/' ∉ s) :
    noDoubleSlash ('/' :: joinSegs ss) = true := by
  induction ss with
  | nil => rfl
  | cons s rest ih =>
      cases rest with
      | nil =>
          simp only [joinSegs]
          exact noDoubleSlash_cons_of_no_slash '/' s (h s (List.mem_cons_self _ _)).2
      | cons t ts =>
          simp only [joinSegs]
          exact noDoubleSlash_glue s (joinSegs (t :: ts)) '/'
            (h s (List.mem_cons_self _ _)).2
            (h s (List.mem_cons_self _ _)).1
            (ih (fun u hu => h u (List.mem_cons_of_mem _ hu)))

/-- On a non-empty path with no dot or dot-dot elements, cleaning keeps
exactly the non-empty segments and produces no duplicate separator. -/
theorem goCleanChars_segs (cs : List Char) (hne : cs ≠ [])
    (h : ∀ s ∈ splitSlash cs, s ≠ [] → (s ≠ ['.'] ∧ s ≠ ['.', '.'])) :
    (splitSlash (goCleanChars cs)).filter (fun s => s ≠ [])
      = (splitSlash cs).filter (fun s => s ≠ []) ∧
    noDoubleSlash (goCleanChars cs) = true := by
  cases cs with
  | nil => exact absurd rfl hne
  | cons c rest =>
      have hmem : ∀ s ∈ (splitSlash (c :: rest)).filter (fun u => u ≠ []),
          s ≠ [] ∧ '/' ∉ s := by
        intro s hs
        have hsf := List.mem_filter.mp hs
        exact ⟨by simpa using hsf.2, mem_splitSlash_no_slash _ s hsf.1⟩
      by_cases hc : c = '/'
      · have hstack : cleanStack true [] (splitSlash (c :: rest))
            = (splitSlash (c :: rest)).filter (fun u => u ≠ []) := by
          simpa using cleanStack_no_dots (splitSlash (c :: rest)) true [] h
        cases hF : (splitSlash (c :: rest)).filter (fun u => u ≠ []) with
        | nil =>
            have hout : goCleanChars (c :: rest) = ['/'] := by
              simp only [goCleanChars, if_pos hc, hstack, hF]
            rw [hout]
            exact ⟨by decide, by decide⟩
        | cons f fs =>
            have hout : goCleanChars (c :: rest) = '/' :: joinSegs (f :: fs) := by
              simp only [goCleanChars, if_pos hc, hstack, hF]
            have hmem2 : ∀ s ∈ f :: fs, s ≠ [] ∧ '/' ∉ s :=
              fun s hs => hmem s (hF ▸ hs)
            have hsplit : splitSlash ('/' :: joinSegs (f :: fs)) = [] :: f :: fs := by
              have h0 := splitSlash_append_slash [] (joinSegs (f :: fs))
              simp only [List.nil_append] at h0
              rw [h0, splitSlash_joinSegs (f :: fs) (by simp)
                (fun u hu => (hmem2 u hu).2)]
              rfl
            refine ⟨?_, ?_⟩
            · rw [hout, hsplit]
              have hkeep : (f :: fs).filter (fun u => u ≠ []) = f :: fs :=
                List.filter_eq_self.mpr (fun a ha => by simpa using (hmem2 a ha).1)
              simpa using hkeep
            · rw [hout]
              exact noDoubleSlash_slash_joinSegs _ hmem2
      · obtain ⟨t, ts, hts⟩ : ∃ t ts, splitSlash (c :: rest) = (c :: t) :: ts :=
          ⟨(splitSlash rest).headD [], (splitSlash rest).tail,
            by rw [splitSlash_cons, if_neg hc]⟩
        have hstack : cleanStack false [] (splitSlash (c :: rest))
            = (splitSlash (c :: rest)).filter (fun u => u ≠ []) := by
          simpa using cleanStack_no_dots (splitSlash (c :: rest)) false [] h
        cases hF : (splitSlash (c :: rest)).filter (fun u => u ≠ []) with
        | nil =>
            exfalso
            rw [hts] at hF
            simp at hF
        | cons f fs =>
            have hout : goCleanChars (c :: rest) = joinSegs (f :: fs) := by
              simp only [goCleanChars, if_neg hc, hstack, hF]
            have hmem2 : ∀ s ∈ f :: fs, s ≠ [] ∧ '/' ∉ s :=
              fun s hs => hmem s (hF ▸ hs)
            have hsplit : splitSlash (joinSegs (f :: fs)) = f :: fs :=
              splitSlash_joinSegs _ (by simp) (fun u hu => (hmem2 u hu).2)
            refine ⟨?_, ?_⟩
            · rw [hout, hsplit]
              exact List.filter_eq_self.mpr (fun a ha => by simpa using (hmem2 a ha).1)
            · rw [hout]
              exact noDoubleSlash_tail '/' _ (noDoubleSlash_slash_joinSegs _ hmem2)

/-- Non-empty strings have non-empty character data. -/
theorem string_data_ne_nil (s : String) (h : s ≠ "") : s.data ≠ [] := by
  cases s with
  | mk l => simpa [String.ext_iff] using h

/-- On dot-free paths, goClean keeps exactly the non-empty segments and
yields no duplicate separator. -/
theorem goClean_segs (p : String) (hne : p ≠ "")
    (h : ∀ s ∈ segsOf p, s ≠ ['.'] ∧ s ≠ ['.', '.']) :
    segsOf (goClean p) = segsOf p ∧ noDoubleSlash (goClean p).data = true := by
  have h2 : ∀ s ∈ splitSlash p.data, s ≠ [] → (s ≠ ['.'] ∧ s ≠ ['.', '.']) := by
    intro s hs hsne
    exact h s (List.mem_filter.mpr ⟨hs, by simpa using hsne⟩)
  exact goCleanChars_segs p.data (string_data_ne_nil p hne) h2

/-! ## C9 theorems -/

/-- C9 counterexample: joining the configured base path with the
exchange-rate endpoint for the currency ".." (a path argument the
operation accepts) produces a target whose segments are not the base's
segments followed by the endpoint's — path.Join resolves the dot-dot and
the endpoint's exchange-rate segment is dropped. -/
theorem pathJoin_can_drop_segment :
    joinURL "/v1" (exchangeRateListEndpoint "..") = "/v1/v1/list" ∧
    segsOf (joinURL "/v1" (exchangeRateListEndpoint ".."))
      ≠ segsOf "/v1" ++ segsOf (exchangeRateListEndpoint "..") := by
  refine ⟨?_, ?_⟩ <;> decide

/-- C9 amended: for every configured base path and endpoint none of
whose slash-separated segments is a dot or dot-dot element (every
endpoint this client builds from its templates satisfies this whenever
the interpolated path argument does), the joined request target carries
exactly the base's segments followed by the endpoint's — no duplicate
path separators and no dropped leading segment of either part. -/
theorem pathJoin_preserves_segments (base ep : String)
    (hb : ∀ s ∈ segsOf base, s ≠ ['.'] ∧ s ≠ ['.', '.'])
    (he : ∀ s ∈ segsOf ep, s ≠ ['.'] ∧ s ≠ ['.', '.']) :
    segsOf (joinURL base ep) = segsOf base ++ segsOf ep ∧
    noDoubleSlash (joinURL base ep).data = true := by
  unfold joinURL goPathJoin
  by_cases hbase : base = ""
  · by_cases hep : ep = ""
    · rw [if_pos hbase, if_pos hep]
      subst hbase hep
      exact ⟨by decide, by decide⟩
    · rw [if_pos hbase, if_neg hep]
      subst hbase
      have := goClean_segs ep hep he
      simpa [segsOf, splitSlash] using this
  · by_cases hep : ep = ""
    · rw [if_neg hbase, if_pos hep]
      subst hep
      have := goClean_segs base hbase hb
      simpa [segsOf, splitSlash] using this
    · rw [if_neg hbase, if_neg hep]
      have hdata : (base ++ "/" ++ ep).data = base.data ++ '/' :: ep.data := by
        rw [String.data_append, String.data_append, List.append_assoc]
        rfl
      have hsegs : segsOf (base ++ "/" ++ ep) = segsOf base ++ segsOf ep := by
        simp only [segsOf, hdata, splitSlash_append_slash, List.filter_append]
      have hcat : ∀ s ∈ segsOf (base ++ "/" ++ ep), s ≠ ['.'] ∧ s ≠ ['.', '.'] := by
        intro s hs
        rw [hsegs] at hs
        rcases List.mem_append.mp hs with hs | hs
        · exact hb s hs
        · exact he s hs
      have hne2 : (base ++ "/" ++ ep) ≠ "" := by
        intro hcontra
        have hd := congrArg String.data hcontra
        rw [hdata] at hd
        simp at hd
      have := goClean_segs (base ++ "/" ++ ep) hne2 hcat
      rw [hsegs] at this
      exact this

/-- C9 amended witness: the claim's own example — a base ending in v1
joined with the create-recurrence endpoint keeps exactly one v1 segment
followed by recurrence and create, with no duplicate separator. -/
theorem pathJoin_preserves_segments_witness :
    (∀ s ∈ segsOf "/v1", s ≠ ['.'] ∧ s ≠ ['.', '.']) ∧
    (∀ s ∈ segsOf "/recurrence/create", s ≠ ['.'] ∧ s ≠ ['.', '.']) ∧
    (segsOf (joinURL "/v1" "/recurrence/create")
        = segsOf "/v1" ++ segsOf "/recurrence/create" ∧
      noDoubleSlash (joinURL "/v1" "/recurrence/create").data = true) :=
  ⟨by decide, by decide,
    pathJoin_preserves_segments "/v1" "/recurrence/create" (by decide) (by decide)⟩

